import Mathlib

/-!
Shallow embedding of the dependency-tracked state container implemented by
the `useStateWithDeps` hooks of this repository.

JavaScript objects with string keys are modelled as ordered association
lists (`Obj`).  A property read of an absent key yields `undefined`, which
we model with `Option`: a state-record read returns `Option V` (`none` is
`undefined`), and a dependency-flag read is coerced to `Bool` the way the
`if (stateDependenciesRef.current[k])` truthiness test does (absent key is
falsy).  Field values are compared by identity (`!==`); we model the value
universe as an arbitrary type `V` with decidable equality, each element
standing for one identity.  The signal callback `rerender({})` is modelled
by counting its invocations.
-/

namespace StateWithDeps

/-- A JavaScript object: an ordered association list from string keys to
values of type `A`, in insertion order, with at most one entry per key. -/
abbrev Obj (A : Type) := List (String × A)

/-- The key list of a JS object, in insertion order. -/
def objKeys {A : Type} (l : Obj A) : List String := l.map Prod.fst

/-- JS property read `obj[k]` at the object level: the entry value if the
key is present, `none` if absent. -/
def objLookup {A : Type} : Obj A → String → Option A
  | [], _ => none
  | kv :: rest, k => if kv.1 = k then some kv.2 else objLookup rest k

/-- JS property assignment `obj[k] = a`: updates the entry in place when the
key is present (keeping insertion order), otherwise appends the new key at
the end. -/
def objSet {A : Type} : Obj A → String → A → Obj A
  | [], k, a => [(k, a)]
  | kv :: rest, k, a => if kv.1 = k then (k, a) :: rest else kv :: objSet rest k a

variable {V : Type} [DecidableEq V]

/-- Read `currentState[k]` from the state record: an absent key reads as
`undefined`, i.e. `none`. -/
def jsGet (st : Obj (Option V)) (k : String) : Option V :=
  match objLookup st k with
  | some v => v
  | none => none

/-- The truthiness test `if (stateDependenciesRef.current[k])`: an absent
key reads as `undefined`, which is falsy. -/
def depFlag (deps : Obj Bool) (k : String) : Bool :=
  match objLookup deps k with
  | some b => b
  | none => false

/-- One iteration of the `for (const k in payload)` loop of `setState`
(src/unnamed/part_002 lines 31-41): if `currentState[k] !== payload[k]`,
write `currentState[k] = payload[k]` and, when the field is tracked, record
that a rerender is due; otherwise leave the accumulator untouched. -/
def setStep (deps : Obj Bool) (acc : Obj (Option V) × Bool)
    (kv : String × Option V) : Obj (Option V) × Bool :=
  if jsGet acc.1 kv.1 ≠ kv.2 then
    (objSet acc.1 kv.1 kv.2, acc.2 || depFlag deps kv.1)
  else acc

/-- The `setState` callback of src/unnamed/part_002 lines 25-48: fold the
loop body over the payload entries starting from `shouldRerender = false`,
then invoke `rerender({})` once iff `shouldRerender && !unmounted.current`.
The second component is the number of signal-callback invocations this call
performs. -/
def setState (deps : Obj Bool) (unmounted : Bool) (st : Obj (Option V))
    (payload : Obj (Option V)) : Obj (Option V) × Nat :=
  let r := payload.foldl (setStep deps) (st, false)
  (r.1, if r.2 && !unmounted then 1 else 0)

/-- One iteration of the `for (const k in payload)` loop of the `setState`
of src/unnamed/part_001 lines 72-84 (the variant taking an external
`unmountedRef`); transcribed independently from that source. -/
def setStepExt (deps : Obj Bool) (acc : Obj (Option V) × Bool)
    (kv : String × Option V) : Obj (Option V) × Bool :=
  if jsGet acc.1 kv.1 ≠ kv.2 then
    (objSet acc.1 kv.1 kv.2, acc.2 || depFlag deps kv.1)
  else acc

/-- The `setState` callback of src/unnamed/part_001 lines 66-92, the hook
variant whose liveness flag lives in a caller-provided `unmountedRef`:
`if (shouldRerender && !unmountedRef.current) rerender({})`. -/
def setStateExt (deps : Obj Bool) (unmountedRef : Bool) (st : Obj (Option V))
    (payload : Obj (Option V)) : Obj (Option V) × Nat :=
  let r := payload.foldl (setStepExt deps) (st, false)
  (r.1, if r.2 && !unmountedRef then 1 else 0)

/-- The dependency map built at construction (src/unnamed/part_002 lines
18-23): `Object.keys(stateRef.current).reduce((prev, curr) =>
({...prev, [curr]: false}), {})` — every construction-time key mapped to
`false`. -/
def initDeps (init : Obj (Option V)) : Obj Bool :=
  (objKeys init).foldl (fun prev k => objSet prev k false) []

/-- The mutable cells owned by one hook instance: the state record
(`stateRef.current`), the dependency flags (`stateDependenciesRef.current`),
the liveness flag (`unmounted.current`) and the cumulative number of signal
callback (`rerender`) invocations. -/
structure Container (V : Type) where
  state : Obj (Option V)
  deps : Obj Bool
  unmounted : Bool
  signals : Nat
  deriving DecidableEq

/-- Hook construction `useStateWithDeps(initialState)`: state initialized to
the initial record, every dependency flag `false`, liveness flag `false`. -/
def Container.create (init : Obj (Option V)) : Container V :=
  { state := init, deps := initDeps init, unmounted := false, signals := 0 }

/-- The operations callers perform on a container: a tracked read through a
field getter, a `setState(payload)` call, and the unmount cleanup. -/
inductive Op (V : Type) where
  | read (k : String)
  | set (payload : Obj (Option V))
  | unmount
  deriving DecidableEq

/-- A tracked read through a getter such as
`get length() { stateDependencies.length = true; return stateRef.current.length; }`
(src/src/useData.ts lines 28-37): sets the dependency flag and returns the
currently stored value. -/
def trackedRead (c : Container V) (k : String) : Container V × Option V :=
  ({ c with deps := objSet c.deps k true }, jsGet c.state k)

/-- One container operation. A read only flips the dependency flag; a set
runs `setState` against the current cells and accumulates its signal count;
the unmount cleanup (`unmounted.current = true`) only sets the liveness
flag. -/
def Container.step (c : Container V) : Op V → Container V
  | Op.read k => (trackedRead c k).1
  | Op.set payload =>
      let r := setState c.deps c.unmounted c.state payload
      { c with state := r.1, signals := c.signals + r.2 }
  | Op.unmount => { c with unmounted := true }

/-- Running a sequence of operations in call order. -/
def Container.steps (c : Container V) (ops : List (Op V)) : Container V :=
  ops.foldl Container.step c

/-- The boolean `shouldRerender` computed by one `setState` call, expressed
against the state record as it stood before the call: some payload entry
differs by identity from the stored value and its field is tracked. -/
def notifyWorthy (deps : Obj Bool) (st : Obj (Option V))
    (payload : Obj (Option V)) : Bool :=
  payload.any (fun kv => (jsGet st kv.1 != kv.2) && depFlag deps kv.1)

/-- The loop body of `setState` in an explicit error monad.  The source
loop contains no `throw` and no fallible operation: a JS property read of
an absent key yields `undefined` and a property write of a fresh key
extends the object, so every branch returns normally. -/
def setStepE (deps : Obj Bool) (acc : Obj (Option V) × Bool)
    (kv : String × Option V) : Except String (Obj (Option V) × Bool) :=
  if jsGet acc.1 kv.1 ≠ kv.2 then
    Except.ok (objSet acc.1 kv.1 kv.2, acc.2 || depFlag deps kv.1)
  else Except.ok acc

/-- The `setState` of src/unnamed/part_002 lines 25-48 in an explicit error
monad, for stating that the operation completes normally on every payload,
unknown keys included. -/
def setStateE (deps : Obj Bool) (unmounted : Bool) (st : Obj (Option V))
    (payload : Obj (Option V)) : Except String (Obj (Option V) × Nat) := do
  let r ← payload.foldlM (setStepE deps) (st, false)
  return (r.1, if r.2 && !unmounted then 1 else 0)

/-- Which keys an operation touches: a read key, or the payload keys of a
set.  The accessor surface of the hooks only exposes the construction-time
fields, so well-formed call sequences satisfy this predicate with the
construction-time field list. -/
def opInFields (fields : List String) : Op V → Prop
  | Op.read k => k ∈ fields
  | Op.set payload => ∀ kv ∈ payload, kv.1 ∈ fields
  | Op.unmount => True

instance (fields : List String) : ∀ op : Op V, Decidable (opInFields fields op)
  | Op.read k => inferInstanceAs (Decidable (k ∈ fields))
  | Op.set payload => inferInstanceAs (Decidable (∀ kv ∈ payload, kv.1 ∈ fields))
  | Op.unmount => inferInstanceAs (Decidable True)

/-! Basic lemmas about the JS object model. -/

theorem objKeys_nil {A : Type} : objKeys ([] : Obj A) = [] := rfl

theorem objKeys_cons {A : Type} (kv : String × A) (l : Obj A) :
    objKeys (kv :: l) = kv.1 :: objKeys l := rfl

theorem fst_mem_objKeys {A : Type} {kv : String × A} {l : Obj A}
    (h : kv ∈ l) : kv.1 ∈ objKeys l :=
  List.mem_map_of_mem Prod.fst h

theorem objLookup_objSet {A : Type} (l : Obj A) (k k' : String) (a : A) :
    objLookup (objSet l k' a) k = if k' = k then some a else objLookup l k := by
  induction l with
  | nil => simp [objSet, objLookup]
  | cons kv rest ih =>
      by_cases h : kv.1 = k'
      · subst h
        by_cases h2 : kv.1 = k
        · subst h2
          simp [objSet, objLookup]
        · simp [objSet, objLookup, h2]
      · by_cases h2 : k' = k
        · subst h2
          simp [objSet, objLookup, h, ih]
        · simp [objSet, objLookup, h, h2, ih]

theorem jsGet_objSet (st : Obj (Option V)) (k k' : String) (v : Option V) :
    jsGet (objSet st k' v) k = if k' = k then v else jsGet st k := by
  unfold jsGet
  rw [objLookup_objSet]
  split_ifs <;> rfl

theorem depFlag_objSet (deps : Obj Bool) (k k' : String) (b : Bool) :
    depFlag (objSet deps k' b) k = if k' = k then b else depFlag deps k := by
  unfold depFlag
  rw [objLookup_objSet]
  split_ifs <;> rfl

theorem objLookup_eq_none {A : Type} {l : Obj A} {k : String}
    (h : k ∉ objKeys l) : objLookup l k = none := by
  induction l with
  | nil => rfl
  | cons kv rest ih =>
      rw [objKeys_cons, List.mem_cons] at h
      push_neg at h
      simp only [objLookup]
      rw [if_neg (fun hk => h.1 hk.symm)]
      exact ih h.2

theorem jsGet_eq_none {st : Obj (Option V)} {k : String}
    (h : k ∉ objKeys st) : jsGet st k = none := by
  unfold jsGet
  rw [objLookup_eq_none h]

theorem objLookup_of_mem_nodup {A : Type} {l : Obj A} {kv : String × A}
    (hnd : (objKeys l).Nodup) (h : kv ∈ l) : objLookup l kv.1 = some kv.2 := by
  induction l with
  | nil => cases h
  | cons x rest ih =>
      rw [objKeys_cons, List.nodup_cons] at hnd
      rcases List.mem_cons.mp h with h | h
      · subst h
        simp [objLookup]
      · have hne : x.1 ≠ kv.1 := by
          intro he
          exact hnd.1 (he ▸ fst_mem_objKeys h)
        simp only [objLookup, if_neg hne]
        exact ih hnd.2 h

theorem objKeys_objSet_mem {A : Type} {l : Obj A} {k : String} (a : A)
    (h : k ∈ objKeys l) : objKeys (objSet l k a) = objKeys l := by
  induction l with
  | nil => cases h
  | cons kv rest ih =>
      by_cases hk : kv.1 = k
      · simp [objSet, hk, objKeys_cons]
      · have h2 : k ∈ objKeys rest := by
          rw [objKeys_cons, List.mem_cons] at h
          rcases h with h | h
          · exact absurd h.symm hk
          · exact h
        simp only [objSet, if_neg hk, objKeys_cons, List.cons.injEq]
        exact ⟨trivial, ih h2⟩

theorem objKeys_objSet_notMem {A : Type} {l : Obj A} {k : String} (a : A)
    (h : k ∉ objKeys l) : objKeys (objSet l k a) = objKeys l ++ [k] := by
  induction l with
  | nil => rfl
  | cons kv rest ih =>
      rw [objKeys_cons, List.mem_cons] at h
      push_neg at h
      have hk : kv.1 ≠ k := fun he => h.1 he.symm
      simp only [objSet, if_neg hk, objKeys_cons, List.cons_append, List.cons.injEq]
      exact ⟨trivial, ih h.2⟩

theorem list_any_congr {A : Type} {f g : A → Bool} {l : List A}
    (h : ∀ x ∈ l, f x = g x) : l.any f = l.any g := by
  induction l with
  | nil => rfl
  | cons x xs ih =>
      simp only [List.any_cons]
      rw [h x (List.mem_cons_self x xs), ih (fun y hy => h y (List.mem_cons_of_mem x hy))]

/-- Rewriting the state record at one key does not affect the
notify-worthiness contributed by payload entries for other keys. -/
theorem notifyWorthy_objSet (deps : Obj Bool) (st : Obj (Option V))
    (rest : Obj (Option V)) (k : String) (v : Option V)
    (hnotin : k ∉ objKeys rest) :
    notifyWorthy deps (objSet st k v) rest = notifyWorthy deps st rest := by
  apply list_any_congr
  intro kv hkv
  have hne : k ≠ kv.1 := fun he => hnotin (he ▸ fst_mem_objKeys hkv)
  rw [jsGet_objSet, if_neg hne]

/-- The `shouldRerender` flag accumulated by the payload loop: with
duplicate-free payload keys (as a JS object guarantees) it equals the
initial accumulator or-ed with the notify-worthiness of the payload against
the state as it stood when the loop started. -/
theorem foldl_setStep_snd (deps : Obj Bool) (payload : Obj (Option V)) :
    ∀ (st : Obj (Option V)) (b : Bool), (objKeys payload).Nodup →
      (payload.foldl (setStep deps) (st, b)).2 = (b || notifyWorthy deps st payload) := by
  induction payload with
  | nil => intro st b _; simp [notifyWorthy]
  | cons kv rest ih =>
      intro st b hnd
      rw [objKeys_cons, List.nodup_cons] at hnd
      simp only [List.foldl_cons]
      by_cases hch : jsGet st kv.1 ≠ kv.2
      · have hb : (jsGet st kv.1 != kv.2) = true := bne_iff_ne.mpr hch
        rw [show setStep deps (st, b) kv
              = (objSet st kv.1 kv.2, b || depFlag deps kv.1) from by
            simp [setStep, hch]]
        rw [ih (objSet st kv.1 kv.2) (b || depFlag deps kv.1) hnd.2]
        rw [notifyWorthy_objSet deps st rest kv.1 kv.2 hnd.1]
        simp [notifyWorthy, List.any_cons, hb, Bool.or_assoc]
      · push_neg at hch
        have hb : (jsGet st kv.1 != kv.2) = false := by
          simp [bne_eq_false_iff_eq, hch]
        rw [show setStep deps (st, b) kv = (st, b) from by
            simp [setStep, hch]]
        rw [ih st b hnd.2]
        simp [notifyWorthy, List.any_cons, hb]

/-- The state record produced by the payload loop, read through `jsGet`:
with duplicate-free payload keys, a key occurring in the payload reads its
payload value (whether or not it was an identity change), and any other key
reads its old value. -/
theorem foldl_setStep_fst (deps : Obj Bool) (payload : Obj (Option V)) :
    ∀ (st : Obj (Option V)) (b : Bool) (k : String), (objKeys payload).Nodup →
      jsGet (payload.foldl (setStep deps) (st, b)).1 k
        = (objLookup payload k).getD (jsGet st k) := by
  induction payload with
  | nil => intro st b k _; rfl
  | cons kv rest ih =>
      intro st b k hnd
      rw [objKeys_cons, List.nodup_cons] at hnd
      simp only [List.foldl_cons]
      by_cases hch : jsGet st kv.1 ≠ kv.2
      · rw [show setStep deps (st, b) kv
              = (objSet st kv.1 kv.2, b || depFlag deps kv.1) from by
            simp [setStep, hch]]
        rw [ih (objSet st kv.1 kv.2) (b || depFlag deps kv.1) k hnd.2]
        by_cases hk : kv.1 = k
        · subst hk
          rw [objLookup_eq_none hnd.1, jsGet_objSet]
          simp [objLookup]
        · simp only [objLookup, if_neg hk]
          rw [jsGet_objSet, if_neg hk]
      · push_neg at hch
        rw [show setStep deps (st, b) kv = (st, b) from by
            simp [setStep, hch]]
        rw [ih st b k hnd.2]
        by_cases hk : kv.1 = k
        · subst hk
          rw [objLookup_eq_none hnd.1]
          simp [objLookup, hch]
        · simp only [objLookup, if_neg hk]

/-- The payload loop never adds a state-record key when every payload key
already belongs to the record. -/
theorem foldl_setStep_keys (deps : Obj Bool) (payload : Obj (Option V)) :
    ∀ (st : Obj (Option V)) (b : Bool), (∀ kv ∈ payload, kv.1 ∈ objKeys st) →
      objKeys (payload.foldl (setStep deps) (st, b)).1 = objKeys st := by
  induction payload with
  | nil => intro st b _; rfl
  | cons kv rest ih =>
      intro st b hin
      simp only [List.foldl_cons]
      by_cases hch : jsGet st kv.1 ≠ kv.2
      · rw [show setStep deps (st, b) kv
              = (objSet st kv.1 kv.2, b || depFlag deps kv.1) from by
            simp [setStep, hch]]
        have hkeys : objKeys (objSet st kv.1 kv.2) = objKeys st :=
          objKeys_objSet_mem kv.2 (hin kv (List.mem_cons_self kv rest))
        rw [ih (objSet st kv.1 kv.2) (b || depFlag deps kv.1)
            (fun x hx => hkeys ▸ hin x (List.mem_cons_of_mem kv hx))]
        exact hkeys
      · push_neg at hch
        rw [show setStep deps (st, b) kv = (st, b) from by
            simp [setStep, hch]]
        exact ih st b (fun x hx => hin x (List.mem_cons_of_mem kv hx))

/-- The signal count of one `setState` call, in closed form. -/
theorem setState_snd (deps : Obj Bool) (u : Bool) (st payload : Obj (Option V))
    (hnd : (objKeys payload).Nodup) :
    (setState deps u st payload).2
      = if notifyWorthy deps st payload && !u then 1 else 0 := by
  unfold setState
  dsimp only
  rw [foldl_setStep_snd deps payload st false hnd]
  simp

/-- The state record after one `setState` call, read through `jsGet`, in
closed form. -/
theorem setState_fst (deps : Obj Bool) (u : Bool) (st payload : Obj (Option V))
    (hnd : (objKeys payload).Nodup) (k : String) :
    jsGet (setState deps u st payload).1 k
      = (objLookup payload k).getD (jsGet st k) := by
  unfold setState
  dsimp only
  rw [foldl_setStep_fst deps payload st false k hnd]

/-- The updated state record does not depend on the liveness flag: the
liveness check only guards the signal. -/
theorem setState_state_liveness (deps : Obj Bool) (u u' : Bool)
    (st payload : Obj (Option V)) :
    (setState deps u st payload).1 = (setState deps u' st payload).1 := rfl

/-- A `setState` call performed while the liveness flag is `true` invokes
the signal callback zero times. -/
theorem setState_snd_unmounted (deps : Obj Bool) (st payload : Obj (Option V)) :
    (setState deps true st payload).2 = 0 := by
  unfold setState
  simp

/-! Lemmas about the construction-time dependency map. -/

theorem mem_of_objLookup {A : Type} {l : Obj A} {k : String} {a : A}
    (h : objLookup l k = some a) : (k, a) ∈ l := by
  induction l with
  | nil => cases h
  | cons kv rest ih =>
      simp only [objLookup] at h
      by_cases hk : kv.1 = k
      · rw [if_pos hk] at h
        have : kv = (k, a) := by
          cases kv
          cases h
          cases hk
          rfl
        exact this ▸ List.mem_cons_self kv rest
      · rw [if_neg hk] at h
        exact List.mem_cons_of_mem kv (ih h)

theorem objSet_false_values {l : Obj Bool} {k : String}
    (h : ∀ kv ∈ l, kv.2 = false) :
    ∀ kv ∈ objSet l k false, kv.2 = false := by
  induction l with
  | nil =>
      intro kv hkv
      rcases List.mem_singleton.mp hkv with rfl
      rfl
  | cons x rest ih =>
      intro kv hkv
      simp only [objSet] at hkv
      by_cases hx : x.1 = k
      · rw [if_pos hx] at hkv
        rcases List.mem_cons.mp hkv with rfl | hkv
        · rfl
        · exact h kv (List.mem_cons_of_mem x hkv)
      · rw [if_neg hx] at hkv
        rcases List.mem_cons.mp hkv with heq | hkv
        · rw [heq]
          exact h x (List.mem_cons_self x rest)
        · exact ih (fun y hy => h y (List.mem_cons_of_mem x hy)) kv hkv

theorem initDeps_values_false (init : Obj (Option V)) :
    ∀ kv ∈ initDeps init, kv.2 = false := by
  unfold initDeps
  generalize objKeys init = ks
  have haux : ∀ (ks : List String) (acc : Obj Bool), (∀ kv ∈ acc, kv.2 = false) →
      ∀ kv ∈ ks.foldl (fun prev k => objSet prev k false) acc, kv.2 = false := by
    intro ks
    induction ks with
    | nil => intro acc hacc; exact hacc
    | cons k rest ih =>
        intro acc hacc
        simp only [List.foldl_cons]
        exact ih (objSet acc k false) (objSet_false_values hacc)
  exact haux ks [] (fun kv hkv => absurd hkv (List.not_mem_nil kv))

/-- Every dependency flag reads `false` at construction time, whatever the
key (an absent key reads as falsy `undefined`). -/
theorem depFlag_initDeps (init : Obj (Option V)) (k : String) :
    depFlag (initDeps init) k = false := by
  unfold depFlag
  cases h : objLookup (initDeps init) k with
  | none => rfl
  | some b => exact initDeps_values_false init (k, b) (mem_of_objLookup h)

/-- When the construction record has duplicate-free keys (as a JS object
literal guarantees), the dependency map is built with exactly the same key
set, in the same order. -/
theorem objKeys_initDeps (init : Obj (Option V))
    (hinit : (objKeys init).Nodup) : objKeys (initDeps init) = objKeys init := by
  unfold initDeps
  have haux : ∀ (ks : List String) (acc : Obj Bool), ks.Nodup →
      (∀ j ∈ ks, j ∉ objKeys acc) →
      objKeys (ks.foldl (fun prev k => objSet prev k false) acc)
        = objKeys acc ++ ks := by
    intro ks
    induction ks with
    | nil => intro acc _ _; simp
    | cons k rest ih =>
        intro acc hnd hdisj
        rw [List.nodup_cons] at hnd
        simp only [List.foldl_cons]
        rw [ih (objSet acc k false) hnd.2 ?_]
        · rw [objKeys_objSet_notMem false (hdisj k (List.mem_cons_self k rest))]
          simp
        · intro j hj
          rw [objKeys_objSet_notMem false (hdisj k (List.mem_cons_self k rest))]
          intro hmem
          rcases List.mem_append.mp hmem with hmem | hmem
          · exact hdisj j (List.mem_cons_of_mem k hj) hmem
          · rcases List.mem_singleton.mp hmem with rfl
            exact hnd.1 hj
  rw [haux (objKeys init) [] hinit (fun j _ => List.not_mem_nil j)]
  rfl

/-! Lemmas about container operation sequences. -/

theorem step_unmounted_true {c : Container V} (op : Op V)
    (h : c.unmounted = true) : (c.step op).unmounted = true := by
  cases op <;> simp [Container.step, trackedRead, h]

theorem steps_unmounted_true {c : Container V} (ops : List (Op V))
    (h : c.unmounted = true) : (c.steps ops).unmounted = true := by
  induction ops generalizing c with
  | nil => exact h
  | cons op rest ih => exact ih (step_unmounted_true op h)

theorem step_signals_unmounted {c : Container V} (op : Op V)
    (h : c.unmounted = true) : (c.step op).signals = c.signals := by
  cases op with
  | read k => rfl
  | set p =>
      simp only [Container.step]
      rw [h, setState_snd_unmounted]
      rfl
  | unmount => rfl

theorem steps_signals_unmounted {c : Container V} (ops : List (Op V))
    (h : c.unmounted = true) : (c.steps ops).signals = c.signals := by
  induction ops generalizing c with
  | nil => rfl
  | cons op rest ih =>
      calc (Container.steps (c.step op) rest).signals
          = (c.step op).signals := ih (step_unmounted_true op h)
        _ = c.signals := step_signals_unmounted op h

theorem step_depFlag_mono {c : Container V} {k : String} (op : Op V)
    (h : depFlag c.deps k = true) : depFlag (c.step op).deps k = true := by
  cases op with
  | read k' =>
      simp only [Container.step, trackedRead]
      rw [depFlag_objSet]
      split_ifs <;> [rfl; exact h]
  | set p => exact h
  | unmount => exact h

theorem steps_keys_aux (F : List String) (ops : List (Op V)) :
    ∀ c : Container V, objKeys c.state = F → objKeys c.deps = F →
      (∀ op ∈ ops, opInFields F op) →
      objKeys (c.steps ops).state = F ∧ objKeys (c.steps ops).deps = F := by
  induction ops with
  | nil => intro c h1 h2 _; exact ⟨h1, h2⟩
  | cons op rest ih =>
      intro c h1 h2 hops
      have hop := hops op (List.mem_cons_self op rest)
      have hrest := fun o ho => hops o (List.mem_cons_of_mem op ho)
      apply ih (c.step op) ?_ ?_ hrest
      · cases op with
        | read k => exact h1
        | set p =>
            simp only [Container.step]
            unfold setState
            dsimp only
            rw [foldl_setStep_keys c.deps p c.state false
              (fun kv hkv => h1 ▸ hop kv hkv)]
            exact h1
        | unmount => exact h1
      · cases op with
        | read k =>
            simp only [Container.step, trackedRead]
            rw [objKeys_objSet_mem true (h2 ▸ hop)]
            exact h2
        | set p => exact h2
        | unmount => exact h2

/-- A sequence consisting only of tracked reads leaves the state record and
the signal count untouched. -/
theorem steps_reads_preserve (c : Container V) (ops : List (Op V))
    (hro : ∀ op ∈ ops, ∃ k', op = Op.read k') :
    (c.steps ops).state = c.state ∧ (c.steps ops).signals = c.signals := by
  induction ops generalizing c with
  | nil => exact ⟨rfl, rfl⟩
  | cons op rest ih =>
      rcases hro op (List.mem_cons_self op rest) with ⟨k', rfl⟩
      have hrest := ih (c.step (Op.read k'))
        (fun o ho => hro o (List.mem_cons_of_mem _ ho))
      exact ⟨hrest.1, hrest.2⟩

/-- When a state-record read is not `undefined`, the key is present and
holds that value. -/
theorem objLookup_of_jsGet_ne_none {st : Obj (Option V)} {k : String}
    (h : jsGet st k ≠ none) : objLookup st k = some (jsGet st k) := by
  unfold jsGet at h ⊢
  cases hl : objLookup st k with
  | none => rw [hl] at h; exact absurd rfl h
  | some v => rfl

/-- A dependency-flag lookup for a key absent from the flag map reads as
falsy `undefined`. -/
theorem depFlag_eq_false_of_notMem {d : Obj Bool} {k : String}
    (h : k ∉ objKeys d) : depFlag d k = false := by
  unfold depFlag
  rw [objLookup_eq_none h]

/-! The claims. -/

/-- C1: a `set(payload)` call invokes the signal callback exactly once iff
the liveness flag is `false` and some payload entry is for a tracked field
and differs by identity from the value stored before the call; otherwise it
invokes it zero times, and it never invokes it more than once per call
(duplicate-free payload keys, as a JS object guarantees). -/
theorem setState_signals_once_iff (c : Container V) (payload : Obj (Option V))
    (hnd : (objKeys payload).Nodup) :
    ((c.step (Op.set payload)).signals = c.signals + 1 ↔
      c.unmounted = false ∧
        ∃ kv ∈ payload, depFlag c.deps kv.1 = true ∧ jsGet c.state kv.1 ≠ kv.2) ∧
    ((c.step (Op.set payload)).signals = c.signals ∨
      (c.step (Op.set payload)).signals = c.signals + 1) := by
  have hiff : notifyWorthy c.deps c.state payload = true ↔
      ∃ kv ∈ payload, depFlag c.deps kv.1 = true ∧ jsGet c.state kv.1 ≠ kv.2 := by
    simp [notifyWorthy, List.any_eq_true, Bool.and_eq_true, bne_iff_ne, and_comm]
  have hstep : (c.step (Op.set payload)).signals
      = c.signals + (setState c.deps c.unmounted c.state payload).2 := rfl
  rw [hstep, setState_snd c.deps c.unmounted c.state payload hnd]
  constructor
  · constructor
    · intro h
      have hx : (notifyWorthy c.deps c.state payload && !c.unmounted) = true := by
        by_contra hx
        rw [if_neg hx] at h
        omega
      obtain ⟨h1, h2⟩ : notifyWorthy c.deps c.state payload = true
          ∧ (!c.unmounted) = true := by simpa using hx
      have hu : c.unmounted = false := by
        cases hcu : c.unmounted
        · rfl
        · rw [hcu] at h2
          simp at h2
      exact ⟨hu, hiff.mp h1⟩
    · rintro ⟨hu, hex⟩
      rw [hu, hiff.mpr hex]
      simp
  · split_ifs
    · exact Or.inr rfl
    · exact Or.inl (by omega)

/-- Witness for C1 at a concrete container: both fields tracked, both
changed by the payload, the signal fires exactly once. -/
theorem setState_signals_once_iff_witness :
    (objKeys [(("a" : String), some (5 : Nat)), ("b", some 7)]).Nodup ∧
    ((((Container.create [(("a" : String), some (0 : Nat)), ("b", some 1)]).step
        (Op.read "a")).step
        (Op.set [("a", some 5), ("b", some 7)])).signals
      = (((Container.create [(("a" : String), some (0 : Nat)), ("b", some 1)]).step
        (Op.read "a"))).signals + 1) := by
  refine ⟨by decide, ?_⟩
  refine (setState_signals_once_iff _ _ (by decide)).1.mpr ?_
  exact ⟨rfl, ("a", some 5), List.mem_cons_self _ _, by decide, by decide⟩

/-- C2: once the liveness flag is `true`, no subsequent operation sequence
ever invokes the signal callback again, while a further `set` call still
applies its payload to the state record exactly as a live write would. -/
theorem unmount_suppresses_signals_forever (c : Container V) (ops : List (Op V))
    (payload : Obj (Option V)) (h : c.unmounted = true) :
    (c.steps ops).signals = c.signals ∧
    ((c.steps ops).step (Op.set payload)).state
      = (setState (c.steps ops).deps false (c.steps ops).state payload).1 := by
  refine ⟨steps_signals_unmounted ops h, ?_⟩
  have hst : ((c.steps ops).step (Op.set payload)).state
      = (setState (c.steps ops).deps (c.steps ops).unmounted
          (c.steps ops).state payload).1 := rfl
  rw [hst]
  exact setState_state_liveness _ _ _ _ _

/-- Witness for C2: after the unmount cleanup, a tracked changed field is
still written but the cumulative signal count stays at its pre-unmount
value. -/
theorem unmount_suppresses_signals_forever_witness :
    ((((Container.create [(("a" : String), some (0 : Nat))]).step
        (Op.read "a")).step Op.unmount).unmounted = true) ∧
    (((((Container.create [(("a" : String), some (0 : Nat))]).step
        (Op.read "a")).step Op.unmount).steps
        [Op.set [("a", some 5)], Op.set [("a", some 9)]]).signals
      = (((Container.create [(("a" : String), some (0 : Nat))]).step
        (Op.read "a")).step Op.unmount).signals) :=
  ⟨rfl, (unmount_suppresses_signals_forever _ _ [] rfl).1⟩

/-- C3: dependency tracking is monotone: once a dependency flag reads
`true`, it reads `true` after every further operation sequence (reads,
writes, unmount) on the container. -/
theorem depFlag_monotone (c : Container V) (k : String) (ops : List (Op V))
    (h : depFlag c.deps k = true) :
    depFlag (c.steps ops).deps k = true := by
  induction ops generalizing c with
  | nil => exact h
  | cons op rest ih => exact ih (c.step op) (step_depFlag_mono op h)

/-- Witness for C3: after tracking field `a`, further reads, writes and the
unmount transition leave its flag `true`. -/
theorem depFlag_monotone_witness :
    (depFlag ((Container.create [(("a" : String), some (0 : Nat)), ("b", some 1)]).step
        (Op.read "a")).deps "a" = true) ∧
    (depFlag (((Container.create [(("a" : String), some (0 : Nat)), ("b", some 1)]).step
        (Op.read "a")).steps
        [Op.read "b", Op.set [("a", some 7)], Op.unmount, Op.set [("b", some 9)]]).deps
      "a" = true) :=
  ⟨by decide, depFlag_monotone _ "a" _ (by decide)⟩

/-- Counterexample to C4 as stated: a `set` whose payload carries a key
outside the construction-time field set writes that key into the state
record (`currentState[k] = payload[k]` on a JS object extends it) but never
touches the dependency-flag map, so the two key sets diverge. -/
theorem fixed_key_set_counterexample :
    objKeys ((Container.create [(("a" : String), some (0 : Nat))]).step
        (Op.set [("b", some 1)])).state
      ≠ objKeys ((Container.create [(("a" : String), some (0 : Nat))]).step
        (Op.set [("b", some 1)])).deps := by decide

/-- C4 amended: the key sets of the state record and of the dependency-flag
map both stay exactly the construction-time field set under every operation
sequence whose reads and payload keys use only construction-time fields
(the accessor surface of the hooks only exposes those); a payload key
outside that set can extend the state record, as the counterexample
shows. -/
theorem fixed_key_set_for_known_fields (init : Obj (Option V))
    (hinit : (objKeys init).Nodup) (ops : List (Op V))
    (hops : ∀ op ∈ ops, opInFields (objKeys init) op) :
    objKeys ((Container.create init).steps ops).state = objKeys init ∧
    objKeys ((Container.create init).steps ops).deps = objKeys init :=
  steps_keys_aux (objKeys init) ops (Container.create init) rfl
    (objKeys_initDeps init hinit) hops

/-- Witness for the amended C4 on a two-field container driven by reads,
in-field writes and the unmount transition. -/
theorem fixed_key_set_for_known_fields_witness :
    (objKeys [(("a" : String), some (0 : Nat)), ("b", some 1)]).Nodup ∧
    (∀ op ∈ ([Op.read "a", Op.set [("a", some 5), ("b", some 6)], Op.unmount,
        Op.set [("b", some 7)]] : List (Op Nat)),
      opInFields (objKeys [(("a" : String), some (0 : Nat)), ("b", some 1)]) op) ∧
    objKeys ((Container.create [(("a" : String), some (0 : Nat)), ("b", some 1)]).steps
        [Op.read "a", Op.set [("a", some 5), ("b", some 6)], Op.unmount,
          Op.set [("b", some 7)]]).state
      = objKeys [(("a" : String), some (0 : Nat)), ("b", some 1)] :=
  ⟨by decide, by decide,
    (fixed_key_set_for_known_fields _ (by decide) _ (by decide)).1⟩

/-- C5: a `set(payload)` call leaves every dependency-flag entry unchanged,
leaves every state-record field outside the payload keys unchanged, and
leaves every payload field whose payload value is identity-equal to the
stored value unchanged (duplicate-free payload keys, as a JS object
guarantees). -/
theorem setState_frame (c : Container V) (payload : Obj (Option V))
    (hnd : (objKeys payload).Nodup) :
    (c.step (Op.set payload)).deps = c.deps ∧
    (∀ k, k ∉ objKeys payload →
      jsGet (c.step (Op.set payload)).state k = jsGet c.state k) ∧
    (∀ kv ∈ payload, jsGet c.state kv.1 = kv.2 →
      jsGet (c.step (Op.set payload)).state kv.1 = jsGet c.state kv.1) := by
  have hst : (c.step (Op.set payload)).state
      = (setState c.deps c.unmounted c.state payload).1 := rfl
  refine ⟨rfl, ?_, ?_⟩
  · intro k hk
    rw [hst, setState_fst c.deps c.unmounted c.state payload hnd k,
      objLookup_eq_none hk]
    rfl
  · intro kv hkv heq
    rw [hst, setState_fst c.deps c.unmounted c.state payload hnd kv.1,
      objLookup_of_mem_nodup hnd hkv, Option.getD_some]
    exact heq.symm

/-- Witness for C5: a payload touching `a` with an identity-equal value
leaves `a` and the untouched field `b` reading as before, and the flag map
unchanged. -/
theorem setState_frame_witness :
    (objKeys [(("a" : String), some (0 : Nat))]).Nodup ∧
    ((Container.create [(("a" : String), some (0 : Nat)), ("b", some 1)]).step
        (Op.set [("a", some 0)])).deps
      = (Container.create [(("a" : String), some (0 : Nat)), ("b", some 1)]).deps :=
  ⟨by decide, (setState_frame _ _ (by decide)).1⟩

/-- C6: a tracked read of field `f` sets its dependency flag to `true`
unconditionally, returns the value currently stored for `f`, and neither it
nor any sequence of further reads changes the state record or invokes the
signal callback. -/
theorem trackedRead_spec (c : Container V) (k : String) (ops : List (Op V))
    (hro : ∀ op ∈ ops, ∃ k', op = Op.read k') :
    depFlag ((c.step (Op.read k)).deps) k = true ∧
    (trackedRead c k).2 = jsGet c.state k ∧
    (c.step (Op.read k)).state = c.state ∧
    (c.step (Op.read k)).signals = c.signals ∧
    (c.steps ops).state = c.state ∧
    (c.steps ops).signals = c.signals := by
  refine ⟨?_, rfl, rfl, rfl, (steps_reads_preserve c ops hro).1,
    (steps_reads_preserve c ops hro).2⟩
  show depFlag (objSet c.deps k true) k = true
  rw [depFlag_objSet]
  simp

/-- Witness for C6: reading `a` on a fresh container, then reading `a` once
more and `b`, flags `a` and leaves state and signal count alone. -/
theorem trackedRead_spec_witness :
    (∀ op ∈ ([Op.read "a", Op.read "b", Op.read "a"] : List (Op Nat)),
      ∃ k', op = Op.read k') ∧
    depFlag (((Container.create [(("a" : String), some (0 : Nat)), ("b", some 1)]).step
        (Op.read "a")).deps) "a" = true := by
  have hro : ∀ op ∈ ([Op.read "a", Op.read "b", Op.read "a"] : List (Op Nat)),
      ∃ k', op = Op.read k' := by
    intro op hop
    rcases List.mem_cons.mp hop with rfl | hop
    · exact ⟨"a", rfl⟩
    rcases List.mem_cons.mp hop with rfl | hop
    · exact ⟨"b", rfl⟩
    rcases List.mem_singleton.mp hop with rfl
    exact ⟨"a", rfl⟩
  exact ⟨hro,
    (trackedRead_spec (Container.create [("a", some 0), ("b", some 1)]) "a" _ hro).1⟩

/-- C7: sequential `set` calls compose as state transformers in call order:
running the calls `ps ++ [p]` equals running `ps` and then applying `p` as
one further step, whose changed-field comparisons and signal decision are
evaluated against the state record, flag map and liveness flag exactly as
left by the preceding calls. -/
theorem setState_calls_linearize (c : Container V)
    (ps : List (Obj (Option V))) (p : Obj (Option V)) :
    Container.steps c ((ps ++ [p]).map Op.set)
      = (Container.steps c (ps.map Op.set)).step (Op.set p) ∧
    (Container.steps c ((ps ++ [p]).map Op.set)).state
      = (setState (Container.steps c (ps.map Op.set)).deps
          (Container.steps c (ps.map Op.set)).unmounted
          (Container.steps c (ps.map Op.set)).state p).1 ∧
    (Container.steps c ((ps ++ [p]).map Op.set)).signals
      = (Container.steps c (ps.map Op.set)).signals
        + (setState (Container.steps c (ps.map Op.set)).deps
            (Container.steps c (ps.map Op.set)).unmounted
            (Container.steps c (ps.map Op.set)).state p).2 := by
  have h1 : Container.steps c ((ps ++ [p]).map Op.set)
      = (Container.steps c (ps.map Op.set)).step (Op.set p) := by
    unfold Container.steps
    rw [List.map_append, List.foldl_append]
    rfl
  exact ⟨h1, by rw [h1]; rfl, by rw [h1]; rfl⟩

/-- C8: `setState` never throws: in an explicit error monad the operation
returns `Except.ok` of the pure result for every dependency map, liveness
flag, state record and payload — in particular for payloads whose keys do
not exist in the construction-time field set.  The embedding is total with
no reachable error branch. -/
theorem setState_never_throws (deps : Obj Bool) (u : Bool)
    (st payload : Obj (Option V)) :
    setStateE deps u st payload = Except.ok (setState deps u st payload) := by
  have haux : ∀ (p : Obj (Option V)) (acc : Obj (Option V) × Bool),
      p.foldlM (setStepE deps) acc = Except.ok (p.foldl (setStep deps) acc) := by
    intro p
    induction p with
    | nil => intro acc; rfl
    | cons kv rest ih =>
        intro acc
        have hstep : setStepE deps acc kv = Except.ok (setStep deps acc kv) := by
          unfold setStepE setStep
          split_ifs <;> rfl
        simp only [List.foldlM_cons, List.foldl_cons, hstep]
        exact ih (setStep deps acc kv)
  unfold setStateE setState
  rw [haux payload (st, false)]
  rfl

/-- C9: on any container reached from construction by tracked reads,
in-field writes and the unmount transition (the only operations the hooks
expose), a `set` whose payload keys all lie outside the construction-time
field set never signals — each such key's dependency-flag lookup misses, so
it yields no `true` flag however many fields were tracked before — while
every payload entry whose value is not identity-equal to the absent
(undefined) stored value is still merged into the state record as a new
key holding the payload value. -/
theorem unknown_keys_never_signal (init : Obj (Option V))
    (hinit : (objKeys init).Nodup)
    (ops : List (Op V)) (hops : ∀ op ∈ ops, opInFields (objKeys init) op)
    (payload : Obj (Option V)) (hnd : (objKeys payload).Nodup)
    (hout : ∀ kv ∈ payload, kv.1 ∉ objKeys init) :
    (∀ kv ∈ payload,
      depFlag ((Container.create init).steps ops).deps kv.1 = false) ∧
    ((((Container.create init).steps ops).step (Op.set payload)).signals
      = ((Container.create init).steps ops).signals) ∧
    (∀ kv ∈ payload,
      jsGet ((Container.create init).steps ops).state kv.1 = none) ∧
    (∀ kv ∈ payload, kv.2 ≠ none →
      objLookup ((((Container.create init).steps ops).step (Op.set payload)).state)
        kv.1 = some kv.2) := by
  have hkeys := steps_keys_aux (objKeys init) ops (Container.create init) rfl
    (objKeys_initDeps init hinit) hops
  have hflag : ∀ kv ∈ payload,
      depFlag ((Container.create init).steps ops).deps kv.1 = false :=
    fun kv hkv => depFlag_eq_false_of_notMem (hkeys.2 ▸ hout kv hkv)
  have hstored : ∀ kv ∈ payload,
      jsGet ((Container.create init).steps ops).state kv.1 = none :=
    fun kv hkv => jsGet_eq_none (hkeys.1 ▸ hout kv hkv)
  have hst : ((((Container.create init).steps ops).step (Op.set payload)).state)
      = (setState ((Container.create init).steps ops).deps
          ((Container.create init).steps ops).unmounted
          ((Container.create init).steps ops).state payload).1 := rfl
  have hread : ∀ kv ∈ payload,
      jsGet ((((Container.create init).steps ops).step (Op.set payload)).state)
        kv.1 = kv.2 := by
    intro kv hkv
    rw [hst, setState_fst _ _ _ _ hnd, objLookup_of_mem_nodup hnd hkv,
      Option.getD_some]
  refine ⟨hflag, ?_, hstored, ?_⟩
  · have hnw : notifyWorthy ((Container.create init).steps ops).deps
        ((Container.create init).steps ops).state payload = false := by
      apply List.any_eq_false.mpr
      intro kv hkv
      rw [hflag kv hkv]
      simp
    have hsig : (setState ((Container.create init).steps ops).deps
        ((Container.create init).steps ops).unmounted
        ((Container.create init).steps ops).state payload).2 = 0 := by
      rw [setState_snd _ _ _ _ hnd, hnw]
      rfl
    show ((Container.create init).steps ops).signals
        + (setState ((Container.create init).steps ops).deps
            ((Container.create init).steps ops).unmounted
            ((Container.create init).steps ops).state payload).2
      = ((Container.create init).steps ops).signals
    rw [hsig]
    rfl
  · intro kv hkv hne
    rw [show some kv.2
          = some (jsGet ((((Container.create init).steps ops).step
              (Op.set payload)).state) kv.1)
        from by rw [hread kv hkv]]
    exact objLookup_of_jsGet_ne_none (by rw [hread kv hkv]; exact hne)

/-- Witness for C9: after a tracked read of `a` and a live in-field write
that changed `a` (so the container has real tracking history and has even
signalled once), a payload under the unknown key `x` still never signals
and is merged into the state record. -/
theorem unknown_keys_never_signal_witness :
    (objKeys [(("a" : String), some (0 : Nat))]).Nodup ∧
    (∀ op ∈ ([Op.read "a", Op.set [("a", some 3)]] : List (Op Nat)),
      opInFields (objKeys [(("a" : String), some (0 : Nat))]) op) ∧
    (objKeys [(("x" : String), some (7 : Nat))]).Nodup ∧
    (∀ kv ∈ [(("x" : String), some (7 : Nat))],
      kv.1 ∉ objKeys [(("a" : String), some (0 : Nat))]) ∧
    ((((Container.create [(("a" : String), some (0 : Nat))]).steps
        [Op.read "a", Op.set [("a", some 3)]]).step
        (Op.set [("x", some 7)])).signals
      = ((Container.create [(("a" : String), some (0 : Nat))]).steps
        [Op.read "a", Op.set [("a", some 3)]]).signals) :=
  ⟨by decide, by decide, by decide, by decide,
    (unknown_keys_never_signal _ (by decide) _ (by decide) _ (by decide)
      (by decide)).2.1⟩

/-- C10: the two `useStateWithDeps` implementations have extensionally
equal write operations: for every dependency map, liveness flag, state
record and payload, the `setState` of src/unnamed/part_001 (external
`unmountedRef`) and the `setState` of src/unnamed/part_002 (internal
`unmounted` ref) produce the same updated record and the same signal
decision. -/
theorem setState_variants_agree (deps : Obj Bool) (u : Bool)
    (st payload : Obj (Option V)) :
    setStateExt deps u st payload = setState deps u st payload := rfl

end StateWithDeps
